import Mathlib

/-!
Shallow embedding of the recipe-management API (Django/DRF app).

Source of truth: `src/app/recipe/views.py` and `src/app/user/views.py`.
The serializer layer (`recipe/serializers.py`, `user/serializers.py`) and the
model layer (`core/models.py`) are not present in the source tree; the parts
of them a claim depends on are modelled from the specification and carry a
doc comment starting with `Modelled from the spec:`.

The persistent store is modelled as explicit lists of rows; Django auto
increment primary keys become explicit `nextId` counters.
-/

namespace RecipeApp

/-- Row of the `Tag` or `Ingredient` table: both models have the shape
`{id, user_id, name}` and identical upsert semantics, so one row type with
two independent stores embeds both tables. -/
structure AttrRow where
  id : Nat
  userId : Nat
  name : String
  deriving DecidableEq

/-- One attribute table (`Tag.objects` or `Ingredient.objects`) together
with its auto-increment counter. -/
structure AttrStore where
  rows : List AttrRow
  nextId : Nat
  deriving DecidableEq

/-- Row of the `Recipe` table.  The many-to-many links to tags and
ingredients are embedded as the lists of linked ids (the through tables).
`price` is kept as an integer number of cents: no claim depends on decimal
arithmetic. -/
structure Recipe where
  id : Nat
  userId : Nat
  title : String
  timeMinutes : Nat
  price : Int
  description : String
  link : String
  tagIds : List Nat
  ingredientIds : List Nat
  deriving DecidableEq

/-- Row of the user table (claims only need id, email, password, name). -/
structure User where
  id : Nat
  email : String
  password : String
  name : String
  deriving DecidableEq

/-- The whole persistent store. -/
structure Db where
  users : List User
  tagStore : AttrStore
  ingredientStore : AttrStore
  recipes : List Recipe
  nextRecipeId : Nat
  nextUserId : Nat
  deriving DecidableEq

/-- Error taxonomy at the request boundary.  `valueError` stands for a bare
Python `ValueError` escaping the view code (as raised by `int()` in
`RecipeViewSet._params_to_ints`), which is not part of the handled taxonomy. -/
inductive Err where
  | notFound
  | forbidden
  | validationError
  | valueError
  | methodNotAllowed
  deriving DecidableEq

/-! ### Python `int()` and `str.split` on query parameters -/

/-- Decimal value of a digit list (most significant first). -/
def digitsVal (cs : List Char) : Nat :=
  cs.foldl (fun acc c => acc * 10 + (c.toNat - 48)) 0

/-- Python `int(s)` on a token, modelled on the character list: strip
surrounding whitespace, allow one optional sign, then require a nonempty
all-digit body; anything else raises `ValueError`, modelled as `none`. -/
def pyInt (cs : List Char) : Option Int :=
  let t := (cs.dropWhile (·.isWhitespace)).reverse.dropWhile (·.isWhitespace) |>.reverse
  let (neg, body) :=
    match t with
    | '-' :: rest => (true, rest)
    | '+' :: rest => (false, rest)
    | _ => (false, t)
  if body.isEmpty then none
  else if body.all (·.isDigit) then
    some (if neg then -(digitsVal body : Int) else (digitsVal body : Int))
  else none

/-- Python `s.split(',')`: split on every comma, keeping empty pieces. -/
def splitComma : List Char → List (List Char)
  | [] => [[]]
  | c :: rest =>
    if c = ',' then [] :: splitComma rest
    else
      match splitComma rest with
      | [] => [[c]]
      | p :: ps => (c :: p) :: ps

/-- Embeds `RecipeViewSet._params_to_ints`: `[int(str_id) for str_id in qs.split(',')]`.
The first malformed token raises `ValueError`, modelled as `none`. -/
def paramsToInts (qs : String) : Option (List Int) :=
  (splitComma qs.data).mapM pyInt

/-- Python truthiness of `query_params.get(...)`: `None` and the empty
string are falsy, every other string truthy. -/
def truthy : Option String → Bool
  | none => false
  | some s => !s.data.isEmpty

/-! ### `RecipeViewSet.get_queryset` -/

/-- SQL join produced by `queryset.filter(tags__id__in=tag_ids)`: one output
row per (recipe, linked tag with id in the set) pair, so a recipe matching
through several tags appears several times until `distinct()`. -/
def tagJoinFilter (rows : List Recipe) (ids : List Int) : List Recipe :=
  rows.flatMap fun r =>
    (r.tagIds.filter (fun t => ids.contains (Int.ofNat t))).map fun _ => r

/-- Join produced by `queryset.filter(ingredients__id__in=ingredient_ids)`. -/
def ingredientJoinFilter (rows : List Recipe) (ids : List Int) : List Recipe :=
  rows.flatMap fun r =>
    (r.ingredientIds.filter (fun i => ids.contains (Int.ofNat i))).map fun _ => r

/-- Embeds `order_by('-id')` followed by `distinct()` and the final
`filter(user=self.request.user)` of `RecipeViewSet.get_queryset`. -/
def orderAndDistinct (rows : List Recipe) (userId : Nat) : List Recipe :=
  (List.insertionSort (fun a b => b.id ≤ a.id)
    (rows.filter (fun r => r.userId == userId))).dedup

/-- Guarded tag filter of `get_queryset`: `if tags: ... filter(tags__id__in=...)`. -/
def applyTagParam (rows : List Recipe) (tagsParam : Option String) :
    Except Err (List Recipe) :=
  if truthy tagsParam then
    match paramsToInts (tagsParam.getD "") with
    | none => .error .valueError
    | some ids => .ok (tagJoinFilter rows ids)
  else .ok rows

/-- Guarded ingredient filter of `get_queryset`. -/
def applyIngredientParam (rows : List Recipe) (ingredientsParam : Option String) :
    Except Err (List Recipe) :=
  if truthy ingredientsParam then
    match paramsToInts (ingredientsParam.getD "") with
    | none => .error .valueError
    | some ids => .ok (ingredientJoinFilter rows ids)
  else .ok rows

/-- Embeds `RecipeViewSet.get_queryset`: applies the optional tag and ingredient
id filters (guarded by Python truthiness of the raw parameter), then
restricts to the requesting user, orders by descending id and de-duplicates.
A malformed id token makes `int()` raise `ValueError`. -/
def recipeGetQueryset (db : Db) (userId : Nat)
    (tagsParam ingredientsParam : Option String) : Except Err (List Recipe) :=
  match applyTagParam db.recipes tagsParam with
  | .error e => .error e
  | .ok rows1 =>
    match applyIngredientParam rows1 ingredientsParam with
    | .error e => .error e
    | .ok rows2 => .ok (orderAndDistinct rows2 userId)

/-- HTTP status of the list endpoint.  Modelled from the spec: the §7 error
taxonomy maps `ValidationError` to 400, `NotFound` to 404 and forbidden
access to 403; a bare Python `ValueError` belongs to none of these
categories and, with no handler in the view code, surfaces as an unhandled
server error (500). -/
def statusOfList : Except Err (List Recipe) → Nat
  | .ok _ => 200
  | .error .notFound => 404
  | .error .forbidden => 403
  | .error .validationError => 400
  | .error .methodNotAllowed => 405
  | .error .valueError => 500

/-- HTTP status observed for `GET /recipes` with the given raw parameters. -/
def recipeListStatus (db : Db) (userId : Nat)
    (tagsParam ingredientsParam : Option String) : Nat :=
  statusOfList (recipeGetQueryset db userId tagsParam ingredientsParam)

/-! ### Attribute store: get-or-create by (owner, name)

`recipe/serializers.py` is not in the source tree; its tag/ingredient
resolution is modelled from the spec (§4.1 Attribute Store). -/

/-- Lookup predicate for the logical key `(owner, name)`. -/
def attrKey (userId : Nat) (name : String) (t : AttrRow) : Bool :=
  t.userId == userId && t.name == name

/-- Modelled from the spec: `Tag.objects.get_or_create(user=auth_user, name=...)`
in the missing `recipe/serializers.py` — look up an existing entity with
matching `(owner, name)`; if found, reuse it; otherwise create a new one and
persist it immediately. -/
def AttrStore.getOrCreate (s : AttrStore) (userId : Nat) (name : String) :
    Nat × AttrStore :=
  match s.rows.find? (attrKey userId name) with
  | some t => (t.id, s)
  | none => (s.nextId, ⟨s.rows ++ [⟨s.nextId, userId, name⟩], s.nextId + 1⟩)

/-- Modelled from the spec: `resolve(owner, names)` of §4.1 — resolve each
name descriptor in order through get-or-create, returning the resolved ids
alongside the updated store. -/
def AttrStore.resolve (s : AttrStore) (userId : Nat) :
    List String → List Nat × AttrStore
  | [] => ([], s)
  | n :: rest =>
    let (i, s1) := s.getOrCreate userId n
    let (ids, s2) := s1.resolve userId rest
    (i :: ids, s2)

/-- Resolved id of a name in a store, when present (id of the first row
matching the key). -/
def AttrStore.idOf (s : AttrStore) (userId : Nat) (name : String) : Option Nat :=
  (s.rows.find? (attrKey userId name)).map (·.id)

/-- Well-formedness maintained by the store: distinct primary keys, all ids
below the auto-increment counter, and at most one row per `(owner, name)`
logical key. -/
def AttrStore.wf (s : AttrStore) : Prop :=
  s.rows.Pairwise (fun a b => a.id ≠ b.id) ∧
  (∀ t ∈ s.rows, t.id < s.nextId) ∧
  s.rows.Pairwise (fun a b => a.userId = b.userId → a.name ≠ b.name)

/-! ### `BaseRecipeAttrViewSet.get_queryset` (Tag and Ingredient viewsets) -/

/-- Lexicographic (code point) order on character lists, embedding the
database collation behind `order_by('-name')`. -/
def charListLe : List Char → List Char → Bool
  | [], _ => true
  | _ :: _, [] => false
  | a :: as, b :: bs =>
    if a < b then true
    else if b < a then false
    else charListLe as bs

theorem charListLe_total : ∀ x y, charListLe x y = true ∨ charListLe y x = true
  | [], _ => Or.inl rfl
  | _ :: _, [] => Or.inr rfl
  | a :: as, b :: bs => by
    unfold charListLe
    rcases lt_trichotomy a b with h | h | h
    · left; rw [if_pos h]
    · subst h
      simp only [lt_irrefl, if_false]
      exact charListLe_total as bs
    · right; rw [if_pos h]

theorem charListLe_trans : ∀ x y z, charListLe x y = true →
    charListLe y z = true → charListLe x z = true
  | [], _, _ => fun _ _ => rfl
  | a :: as, [], _ => fun h _ => by cases h
  | a :: as, b :: bs, [] => fun _ h => by cases h
  | a :: as, b :: bs, c :: cs => by
    intro hxy hyz
    unfold charListLe at hxy hyz ⊢
    rcases lt_trichotomy a b with hab | hab | hab
    · rcases lt_trichotomy b c with hbc | hbc | hbc
      · rw [if_pos (lt_trans hab hbc)]
      · subst hbc; rw [if_pos hab]
      · rw [if_neg (asymm hbc), if_pos hbc] at hyz; cases hyz
    · subst hab
      rcases lt_trichotomy a c with hac | hac | hac
      · rw [if_pos hac]
      · subst hac
        simp only [lt_irrefl, if_false] at hxy hyz ⊢
        exact charListLe_trans as bs cs hxy hyz
      · rw [if_neg (asymm hac), if_pos hac] at hyz; cases hyz
    · rw [if_neg (asymm hab), if_pos hab] at hxy; cases hxy


/-- Embeds `BaseRecipeAttrViewSet.get_queryset`: reads `assigned_only` (default
`0`, a raw string when present, parsed by `int()`), optionally joins with
the recipes referencing each row (`filter(recipe__isnull=False)`, one
output row per referencing recipe), then restricts to the requesting user,
orders by descending name and de-duplicates.  `linkedCount t` is the number
of recipes linked to row `t`. -/
def baseAttrGetQueryset (items : List AttrRow) (linkedCount : AttrRow → Nat)
    (userId : Nat) (assignedOnlyParam : Option String) :
    Except Err (List AttrRow) :=
  match (match assignedOnlyParam with
         | none => some (0 : Int)
         | some s => pyInt s.data) with
  | none => .error .valueError
  | some v =>
    let queryset :=
      if v != 0 then items.flatMap (fun t => List.replicate (linkedCount t) t)
      else items
    .ok ((List.insertionSort (fun a b => charListLe b.name.data a.name.data = true)
      (queryset.filter (fun t => t.userId == userId))).dedup)

/-- Embeds the `TagViewSet` list queryset over the tag table. -/
def tagGetQueryset (db : Db) (userId : Nat) (assignedOnlyParam : Option String) :
    Except Err (List AttrRow) :=
  baseAttrGetQueryset db.tagStore.rows
    (fun t => (db.recipes.filter (fun r => t.id ∈ r.tagIds)).length)
    userId assignedOnlyParam

/-- Embeds the `IngredientViewSet` list queryset over the ingredient table. -/
def ingredientGetQueryset (db : Db) (userId : Nat)
    (assignedOnlyParam : Option String) : Except Err (List AttrRow) :=
  baseAttrGetQueryset db.ingredientStore.rows
    (fun t => (db.recipes.filter (fun r => t.id ∈ r.ingredientIds)).length)
    userId assignedOnlyParam

/-! ### Detail actions (retrieve / update / delete)

DRF resolves the detail object by primary key inside the owner-scoped
queryset of the viewset; a miss is `NotFound`.  Modelled from the spec
(§4.2, §7): a recipe owned by another owner is indistinguishable from
nonexistent. -/

/-- Object lookup for recipe detail actions: primary key search inside
`RecipeViewSet.get_queryset` (no query parameters on detail routes). -/
def recipeGetObject (db : Db) (userId pk : Nat) : Option Recipe :=
  match recipeGetQueryset db userId none none with
  | .ok rs => rs.find? (fun r => r.id == pk)
  | .error _ => none

/-- Endpoint `GET /recipes/{id}`. -/
def recipeRetrieve (db : Db) (userId pk : Nat) : Except Err Recipe :=
  match recipeGetObject db userId pk with
  | none => .error .notFound
  | some r => .ok r

/-- Endpoint `DELETE /recipes/{id}`: removes the recipe row (and with it its
association lists); tags and ingredients themselves persist.  Returns the
outcome together with the resulting store. -/
def recipeDestroy (db : Db) (userId pk : Nat) : Except Err Unit × Db :=
  match recipeGetObject db userId pk with
  | none => (.error .notFound, db)
  | some r =>
    (.ok (), { db with recipes := db.recipes.filter (fun x => x.id != r.id) })

/-- Object lookup for tag detail actions inside the tag queryset. -/
def tagGetObject (db : Db) (userId pk : Nat) : Option AttrRow :=
  match tagGetQueryset db userId none with
  | .ok ts => ts.find? (fun t => t.id == pk)
  | .error _ => none

/-- Object lookup for ingredient detail actions. -/
def ingredientGetObject (db : Db) (userId pk : Nat) : Option AttrRow :=
  match ingredientGetQueryset db userId none with
  | .ok ts => ts.find? (fun t => t.id == pk)
  | .error _ => none

/-- Modelled from the spec: the router binds only the actions a viewset
implements and a disabled verb fails with `MethodNotAllowed` (405, spec
section 7).  `BaseRecipeAttrViewSet` mixes in only destroy, update and list
(no `RetrieveModelMixin`), so the tag detail route binds no retrieve
action: a detail GET is rejected before any object lookup, for every
caller alike. -/
def tagRetrieve (db : Db) (userId pk : Nat) : Except Err AttrRow :=
  .error .methodNotAllowed

/-- Modelled from the spec: as for `tagRetrieve`, the ingredient detail
route binds no retrieve action, so a detail GET fails with
`methodNotAllowed` for every caller. -/
def ingredientRetrieve (db : Db) (userId pk : Nat) : Except Err AttrRow :=
  .error .methodNotAllowed

/-- Endpoint `PATCH /tags/{id}` (rename).  Modelled from the spec: partial update of
the standalone attribute resource; a row not owned by the caller is
`NotFound`. -/
def tagUpdate (db : Db) (userId pk : Nat) (newName : Option String) :
    Except Err AttrRow × Db :=
  match tagGetObject db userId pk with
  | none => (.error .notFound, db)
  | some t =>
    let t2 := { t with name := (newName.getD t.name) }
    (.ok t2, { db with
      tagStore := { db.tagStore with
        rows := db.tagStore.rows.map (fun x => if x.id == t.id then t2 else x) } })

/-- Endpoint `DELETE /tags/{id}`: removes the row and every m2m link to it. -/
def tagDestroy (db : Db) (userId pk : Nat) : Except Err Unit × Db :=
  match tagGetObject db userId pk with
  | none => (.error .notFound, db)
  | some t =>
    (.ok (), { db with
      tagStore := { db.tagStore with
        rows := db.tagStore.rows.filter (fun x => x.id != t.id) },
      recipes := db.recipes.map
        (fun r => { r with tagIds := r.tagIds.filter (· ≠ t.id) }) })

/-- Endpoint `PATCH /ingredients/{id}` (rename). -/
def ingredientUpdate (db : Db) (userId pk : Nat) (newName : Option String) :
    Except Err AttrRow × Db :=
  match ingredientGetObject db userId pk with
  | none => (.error .notFound, db)
  | some t =>
    let t2 := { t with name := (newName.getD t.name) }
    (.ok t2, { db with
      ingredientStore := { db.ingredientStore with
        rows := db.ingredientStore.rows.map
          (fun x => if x.id == t.id then t2 else x) } })

/-- Endpoint `DELETE /ingredients/{id}`. -/
def ingredientDestroy (db : Db) (userId pk : Nat) : Except Err Unit × Db :=
  match ingredientGetObject db userId pk with
  | none => (.error .notFound, db)
  | some t =>
    (.ok (), { db with
      ingredientStore := { db.ingredientStore with
        rows := db.ingredientStore.rows.filter (fun x => x.id != t.id) },
      recipes := db.recipes.map
        (fun r => { r with ingredientIds := r.ingredientIds.filter (· ≠ t.id) }) })

/-! ### Recipe create and update (serializer layer, modelled from the spec) -/

/-- Payload of `POST /recipes`. -/
structure RecipeCreatePayload where
  title : String
  timeMinutes : Nat
  price : Int
  description : Option String
  link : Option String
  tags : Option (List String)
  ingredients : Option (List String)
  deriving DecidableEq

/-- Payload of `PATCH /recipes/{id}`: a field is `none` when its key is
absent from the request body.  `userField` carries an attempted `user` value
(the serializer treats the owner as read-only and discards it). -/
structure RecipePayload where
  title : Option String
  timeMinutes : Option Nat
  price : Option Int
  description : Option String
  link : Option String
  userField : Option Nat
  tags : Option (List String)
  ingredients : Option (List String)
  deriving DecidableEq

/-- Modelled from the spec: `RecipeSerializer.create` plus
`perform_create(serializer.save(user=request.user))` — persist a new recipe
owned by the requesting user, resolve any supplied tag and ingredient name
descriptors through the attribute store, and link the resolved sets (an m2m
`add` links each entity at most once, so duplicates collapse). -/
def recipeCreate (db : Db) (userId : Nat) (p : RecipeCreatePayload) :
    Recipe × Db :=
  let r0 : Recipe :=
    { id := db.nextRecipeId,
      userId := userId,
      title := p.title,
      timeMinutes := p.timeMinutes,
      price := p.price,
      description := (p.description.getD ""),
      link := (p.link.getD ""),
      tagIds := [],
      ingredientIds := [] }
  let (r1, ts) :=
    match p.tags with
    | none => (r0, db.tagStore)
    | some names =>
      let (ids, s) := db.tagStore.resolve userId names
      ({ r0 with tagIds := ids.dedup }, s)
  let (r2, is) :=
    match p.ingredients with
    | none => (r1, db.ingredientStore)
    | some names =>
      let (ids, s) := db.ingredientStore.resolve userId names
      ({ r1 with ingredientIds := ids.dedup }, s)
  (r2, { db with
         tagStore := ts,
         ingredientStore := is,
         recipes := db.recipes ++ [r2],
         nextRecipeId := db.nextRecipeId + 1 })

/-- Modelled from the spec: `RecipeSerializer.update` — the object is looked
up in the owner-scoped queryset (miss is `NotFound`); supplied scalar fields
overwrite, absent ones keep their prior value; a present `tags` or
`ingredients` key (even an empty list) clears the link set and replaces it
with the resolved set; the `user` field is read-only and silently discarded. -/
def recipeUpdate (db : Db) (userId pk : Nat) (p : RecipePayload) :
    Except Err Recipe × Db :=
  match recipeGetObject db userId pk with
  | none => (.error .notFound, db)
  | some r =>
    let r1 : Recipe :=
      { r with
        title := (p.title.getD r.title),
        timeMinutes := (p.timeMinutes.getD r.timeMinutes),
        price := (p.price.getD r.price),
        description := (p.description.getD r.description),
        link := (p.link.getD r.link) }
    let (r2, ts) :=
      match p.tags with
      | none => (r1, db.tagStore)
      | some names =>
        let (ids, s) := db.tagStore.resolve userId names
        ({ r1 with tagIds := ids.dedup }, s)
    let (r3, is) :=
      match p.ingredients with
      | none => (r2, db.ingredientStore)
      | some names =>
        let (ids, s) := db.ingredientStore.resolve userId names
        ({ r2 with ingredientIds := ids.dedup }, s)
    (.ok r3, { db with
      tagStore := ts,
      ingredientStore := is,
      recipes := db.recipes.map (fun x => if x.id == pk then r3 else x) })

/-! ### User creation -/

/-- Modelled from the spec: `UserSerializer` behind `CreateUserView`
(`user/serializers.py` is not in the source tree) — a password shorter than
5 characters fails validation with 400 before anything is persisted; a
duplicate email also fails with 400; otherwise the user row is created.
Returns the HTTP status and the resulting store. -/
def createUser (db : Db) (email password name : String) : Nat × Db :=
  if password.length < 5 then (400, db)
  else if db.users.any (fun u => u.email == email) then (400, db)
  else
    (201, { db with
      users := db.users ++ [⟨db.nextUserId, email, password, name⟩],
      nextUserId := db.nextUserId + 1 })

/-! ### Concrete stores and payloads used by witnesses -/

/-- Two-owner store used by the cross-owner isolation witness: owner 10 and
owner 11 each have one recipe, one tag and one ingredient. -/
def wDbIso : Db :=
  ⟨[⟨10, "a@e.com", "pass1", "A"⟩, ⟨11, "b@e.com", "pass1", "B"⟩],
   ⟨[⟨1, 10, "A"⟩, ⟨3, 11, "F"⟩], 4⟩,
   ⟨[⟨7, 10, "S"⟩, ⟨9, 11, "P"⟩], 10⟩,
   [⟨1, 10, "R1", 5, 100, "", "", [1], [7]⟩,
    ⟨4, 11, "R4", 5, 100, "", "", [3], [9]⟩], 5, 12⟩

/-- Store and payload for the C2 witness: the tag `Indian` pre-exists for
owner 10; the create payload repeats `Breakfast`. -/
def wDbC2 : Db :=
  ⟨[], ⟨[⟨1, 10, "Indian"⟩], 2⟩, ⟨[], 1⟩, [], 1, 1⟩

/-- Payload of the C2 witness. -/
def wPayloadC2 : RecipeCreatePayload :=
  ⟨"Pongal", 60, 450, none, none,
    some ["Indian", "Breakfast", "Breakfast"], none⟩

/-- Store for the C3 witness: tags `B` (linked) and `L` exist for owner 10,
the sole recipe links tag 1. -/
def wDbC3 : Db :=
  ⟨[], ⟨[⟨1, 10, "B"⟩, ⟨2, 10, "L"⟩], 3⟩, ⟨[], 1⟩,
   [⟨1, 10, "T", 5, 100, "", "", [1], []⟩], 2, 1⟩

/-- Payload of the C3 witness: only the `tags` key, set to `[L]`. -/
def wPayloadC3 : RecipePayload :=
  ⟨none, none, none, none, none, none, some ["L"], none⟩

/-- Store for the C6 witness. -/
def wDbC6 : Db :=
  ⟨[], ⟨[⟨1, 10, "B"⟩], 2⟩, ⟨[], 1⟩,
   [⟨1, 10, "Old", 5, 100, "", "L", [1], []⟩], 2, 1⟩

/-- Payload of the C6 witness: new title plus an attempted owner change. -/
def wPayloadC6 : RecipePayload :=
  ⟨some "New", none, none, none, none, some 99, none, none⟩

/-! ## Helper lemmas -/

theorem mem_tagJoinFilter {rows : List Recipe} {ids : List Int} {x : Recipe} :
    x ∈ tagJoinFilter rows ids ↔
      x ∈ rows ∧ ∃ t ∈ x.tagIds, Int.ofNat t ∈ ids := by
  unfold tagJoinFilter
  simp only [List.mem_flatMap, List.mem_map, List.mem_filter]
  constructor
  · rintro ⟨r, hr, ⟨t, ⟨ht, hmem⟩, rfl⟩⟩
    exact ⟨hr, t, ht, by simpa using hmem⟩
  · rintro ⟨hx, t, ht, hmem⟩
    exact ⟨x, hx, ⟨t, ⟨ht, by simpa using hmem⟩, rfl⟩⟩

theorem mem_ingredientJoinFilter {rows : List Recipe} {ids : List Int} {x : Recipe} :
    x ∈ ingredientJoinFilter rows ids ↔
      x ∈ rows ∧ ∃ i ∈ x.ingredientIds, Int.ofNat i ∈ ids := by
  unfold ingredientJoinFilter
  simp only [List.mem_flatMap, List.mem_map, List.mem_filter]
  constructor
  · rintro ⟨r, hr, ⟨t, ⟨ht, hmem⟩, rfl⟩⟩
    exact ⟨hr, t, ht, by simpa using hmem⟩
  · rintro ⟨hx, t, ht, hmem⟩
    exact ⟨x, hx, ⟨t, ⟨ht, by simpa using hmem⟩, rfl⟩⟩

theorem mem_orderAndDistinct {rows : List Recipe} {u : Nat} {x : Recipe} :
    x ∈ orderAndDistinct rows u ↔ x ∈ rows ∧ x.userId = u := by
  unfold orderAndDistinct
  rw [List.mem_dedup, (List.perm_insertionSort _ _).mem_iff, List.mem_filter]
  simp [beq_iff_eq]

theorem pairwise_orderAndDistinct {rows S : List Recipe} {u : Nat}
    (hsub : ∀ x ∈ rows, x ∈ S)
    (hids : S.Pairwise (fun x y => x.id ≠ y.id)) :
    (orderAndDistinct rows u).Pairwise (fun x y => y.id < x.id) := by
  haveI : IsTotal Recipe (fun a b => b.id ≤ a.id) :=
    ⟨fun a b => (Nat.le_total a.id b.id).symm⟩
  haveI : IsTrans Recipe (fun a b => b.id ≤ a.id) :=
    ⟨fun _ _ _ h1 h2 => le_trans h2 h1⟩
  have hsorted : (orderAndDistinct rows u).Pairwise (fun a b => b.id ≤ a.id) :=
    List.Pairwise.sublist (List.dedup_sublist _)
      (List.sorted_insertionSort _ _)
  have hnd : (orderAndDistinct rows u).Nodup := List.nodup_dedup _
  have hcomb := hnd.and hsorted
  refine hcomb.imp_of_mem ?_
  intro a b ha hb hab
  have haS : a ∈ S := hsub a (mem_orderAndDistinct.mp ha).1
  have hbS : b ∈ S := hsub b (mem_orderAndDistinct.mp hb).1
  have hsym : Symmetric (fun x y : Recipe => x.id ≠ y.id) :=
    fun x y h e => h e.symm
  have hne : a.id ≠ b.id := hids.forall hsym haS hbS hab.1
  exact lt_of_le_of_ne hab.2 fun e => hne e.symm

theorem applyTagParam_ok_sub {rows rows1 : List Recipe} {tp : Option String}
    (h : applyTagParam rows tp = .ok rows1) : ∀ x ∈ rows1, x ∈ rows := by
  unfold applyTagParam at h
  by_cases ht : truthy tp = true
  · rw [if_pos ht] at h
    cases hp : paramsToInts (tp.getD "") with
    | none => rw [hp] at h; cases h
    | some ids =>
      rw [hp] at h
      cases h
      exact fun x hx => (mem_tagJoinFilter.mp hx).1
  · rw [if_neg ht] at h
    cases h
    exact fun x hx => hx

theorem applyIngredientParam_ok_sub {rows rows1 : List Recipe}
    {ip : Option String} (h : applyIngredientParam rows ip = .ok rows1) :
    ∀ x ∈ rows1, x ∈ rows := by
  unfold applyIngredientParam at h
  by_cases ht : truthy ip = true
  · rw [if_pos ht] at h
    cases hp : paramsToInts (ip.getD "") with
    | none => rw [hp] at h; cases h
    | some ids =>
      rw [hp] at h
      cases h
      exact fun x hx => (mem_ingredientJoinFilter.mp hx).1
  · rw [if_neg ht] at h
    cases h
    exact fun x hx => hx

/-- Shape of every successful list query: the rows that go into the final
ordering step all come from the recipe table. -/
theorem recipeGetQueryset_ok_shape {db : Db} {u : Nat}
    {tp ip : Option String} {rs : List Recipe}
    (h : recipeGetQueryset db u tp ip = .ok rs) :
    ∃ rows, rs = orderAndDistinct rows u ∧ ∀ x ∈ rows, x ∈ db.recipes := by
  unfold recipeGetQueryset at h
  cases h1 : applyTagParam db.recipes tp with
  | error e => rw [h1] at h; cases h
  | ok rows1 =>
    rw [h1] at h
    dsimp only at h
    cases h2 : applyIngredientParam rows1 ip with
    | error e => rw [h2] at h; cases h
    | ok rows2 =>
      rw [h2] at h
      cases h
      exact ⟨rows2, rfl, fun x hx =>
        applyTagParam_ok_sub h1 x (applyIngredientParam_ok_sub h2 x hx)⟩

theorem mem_recipeGetQueryset_sound {db : Db} {u : Nat}
    {tp ip : Option String} {rs : List Recipe} {x : Recipe}
    (h : recipeGetQueryset db u tp ip = .ok rs) (hx : x ∈ rs) :
    x ∈ db.recipes ∧ x.userId = u := by
  obtain ⟨rows, rfl, hsub⟩ := recipeGetQueryset_ok_shape h
  have := mem_orderAndDistinct.mp hx
  exact ⟨hsub x this.1, this.2⟩

/-! ## Claims -/

/-- C10: a `tags` (or `ingredients`) query parameter that is present but
equal to the empty string is treated exactly as an absent parameter: the
queryset is computed identically, and with both parameters empty the result
is exactly the owner's recipes, unfiltered. -/
theorem emptyParamSameAsAbsent (db : Db) (u : Nat) (p : Option String) :
    recipeGetQueryset db u (some "") p = recipeGetQueryset db u none p ∧
    recipeGetQueryset db u p (some "") = recipeGetQueryset db u p none ∧
    (∀ rs, recipeGetQueryset db u (some "") (some "") = .ok rs →
      ∀ x, x ∈ rs ↔ x ∈ db.recipes ∧ x.userId = u) := by
  refine ⟨rfl, rfl, ?_⟩
  intro rs h x
  have hrs : rs = orderAndDistinct db.recipes u := by
    have : recipeGetQueryset db u (some "") (some "") =
        .ok (orderAndDistinct db.recipes u) := rfl
    rw [this] at h
    cases h
    rfl
  rw [hrs, mem_orderAndDistinct]

/-- C10 witness at a concrete store. -/
theorem emptyParamSameAsAbsent_witness :
    (⟨1, 10, "A", 5, 100, "", "", [1], []⟩ : Recipe) ∈
      [(⟨1, 10, "A", 5, 100, "", "", [1], []⟩ : Recipe)] := by
  have h := (emptyParamSameAsAbsent
    ⟨[], ⟨[], 1⟩, ⟨[], 1⟩, [⟨1, 10, "A", 5, 100, "", "", [1], []⟩], 2, 1⟩
    10 none).2.2 [⟨1, 10, "A", 5, 100, "", "", [1], []⟩] rfl
    ⟨1, 10, "A", 5, 100, "", "", [1], []⟩
  exact h.mpr (by decide)

/-- C5 counterexample: at the concrete malformed token `abc` the list
request does not produce a 400 client error — the `ValueError` raised by
`int()` is unhandled and the request ends as a server error (500). -/
theorem malformedParamCounterexample :
    recipeListStatus ⟨[], ⟨[], 1⟩, ⟨[], 1⟩, [], 1, 1⟩ 1 (some "abc") none = 500 ∧
    recipeListStatus ⟨[], ⟨[], 1⟩, ⟨[], 1⟩, [], 1, 1⟩ 1 (some "abc") none ≠ 400 := by
  constructor
  · rfl
  · decide

/-- C5 amended: a recipe list request whose `tags` or `ingredients`
parameter is nonempty and contains a malformed (non-numeric) id token fails
with an unhandled `ValueError` surfacing as a server error (500), not as a
`ValidationError` client error (400). -/
theorem malformedParamServerError (db : Db) (u : Nat) (s : String)
    (hbad : paramsToInts s = none) (hne : s.data ≠ []) :
    recipeListStatus db u (some s) none = 500 ∧
    recipeListStatus db u none (some s) = 500 := by
  have htr : truthy (some s) = true := by
    unfold truthy
    cases hd : s.data with
    | nil => exact absurd hd hne
    | cons c cs => simp [hd]
  have hA : ∀ rows, applyTagParam rows (some s) = .error .valueError := by
    intro rows
    unfold applyTagParam
    rw [if_pos htr, Option.getD_some, hbad]
  have hB : ∀ rows, applyIngredientParam rows (some s) = .error .valueError := by
    intro rows
    unfold applyIngredientParam
    rw [if_pos htr, Option.getD_some, hbad]
  constructor
  · unfold recipeListStatus recipeGetQueryset
    rw [hA]
    rfl
  · unfold recipeListStatus recipeGetQueryset
    have hT : applyTagParam db.recipes none = .ok db.recipes := rfl
    rw [hT]
    dsimp only
    rw [hB]
    rfl

/-- C5 amended witness: the malformed token `12x` on either parameter. -/
theorem malformedParamServerError_witness :
    recipeListStatus ⟨[], ⟨[], 1⟩, ⟨[], 1⟩, [], 1, 1⟩ 7 (some "12x") none = 500 ∧
    recipeListStatus ⟨[], ⟨[], 1⟩, ⟨[], 1⟩, [], 1, 1⟩ 7 none (some "12x") = 500 :=
  malformedParamServerError ⟨[], ⟨[], 1⟩, ⟨[], 1⟩, [], 1, 1⟩ 7 "12x"
    (by decide) (by decide)

/-- C9: a user-creation request with a password shorter than 5 characters
fails with 400 and leaves the store untouched, so no user row with the
requested email exists afterwards when none existed before. -/
theorem shortPasswordRejected (db : Db) (email password name : String)
    (hshort : password.length < 5) :
    (createUser db email password name).1 = 400 ∧
    (createUser db email password name).2 = db ∧
    ((∀ u ∈ db.users, u.email ≠ email) →
      ∀ u ∈ (createUser db email password name).2.users, u.email ≠ email) := by
  unfold createUser
  rw [if_pos hshort]
  exact ⟨rfl, rfl, fun h => h⟩

/-- C9 witness: password `test` (4 characters) against an empty store. -/
theorem shortPasswordRejected_witness :
    (createUser ⟨[], ⟨[], 1⟩, ⟨[], 1⟩, [], 1, 1⟩ "t@e.com" "test" "N").1 = 400 ∧
    (createUser ⟨[], ⟨[], 1⟩, ⟨[], 1⟩, [], 1, 1⟩ "t@e.com" "test" "N").2 =
      ⟨[], ⟨[], 1⟩, ⟨[], 1⟩, [], 1, 1⟩ := by
  have h := shortPasswordRejected ⟨[], ⟨[], 1⟩, ⟨[], 1⟩, [], 1, 1⟩
    "t@e.com" "test" "N" (by decide)
  exact ⟨h.1, h.2.1⟩

/-- C7: every successful recipe list is strictly descending by id (most
recently created first), and every returned recipe appears exactly once,
even when it matched the filters through several tag or ingredient links. -/
theorem listOrderedDescendingDistinct (db : Db) (u : Nat)
    (tp ip : Option String) (rs : List Recipe)
    (h : recipeGetQueryset db u tp ip = .ok rs)
    (hids : db.recipes.Pairwise (fun x y => x.id ≠ y.id)) :
    rs.Pairwise (fun x y => y.id < x.id) ∧ ∀ x ∈ rs, rs.count x = 1 := by
  obtain ⟨rows, rfl, hsub⟩ := recipeGetQueryset_ok_shape h
  refine ⟨pairwise_orderAndDistinct hsub hids, ?_⟩
  intro x hx
  exact List.count_eq_one_of_mem (List.nodup_dedup _) hx

/-- C7 witness: a store holding two recipes of the owner, the younger one
linked twice over, listed with a tag filter matching both links. -/
theorem listOrderedDescendingDistinct_witness :
    ([⟨2, 10, "B", 5, 100, "", "", [1, 2], []⟩,
      ⟨1, 10, "A", 5, 100, "", "", [1], []⟩] :
        List Recipe).Pairwise (fun x y => y.id < x.id) ∧
    ∀ x ∈ ([⟨2, 10, "B", 5, 100, "", "", [1, 2], []⟩,
      ⟨1, 10, "A", 5, 100, "", "", [1], []⟩] : List Recipe),
      List.count x [⟨2, 10, "B", 5, 100, "", "", [1, 2], []⟩,
        ⟨1, 10, "A", 5, 100, "", "", [1], []⟩] = 1 :=
  listOrderedDescendingDistinct
    ⟨[], ⟨[⟨1, 10, "T1"⟩, ⟨2, 10, "T2"⟩], 3⟩, ⟨[], 1⟩,
      [⟨1, 10, "A", 5, 100, "", "", [1], []⟩,
       ⟨2, 10, "B", 5, 100, "", "", [1, 2], []⟩], 3, 1⟩
    10 (some "1,2") none
    [⟨2, 10, "B", 5, 100, "", "", [1, 2], []⟩,
     ⟨1, 10, "A", 5, 100, "", "", [1], []⟩]
    rfl (by decide)

/-! ### Attribute list queryset lemmas -/

theorem baseAttr_none_ok (items : List AttrRow) (lc : AttrRow → Nat) (u : Nat) :
    baseAttrGetQueryset items lc u none =
      .ok ((List.insertionSort (fun a b => charListLe b.name.data a.name.data = true)
        (items.filter (fun t => t.userId == u))).dedup) := rfl

theorem baseAttr_none_spec {items : List AttrRow} {lc : AttrRow → Nat}
    {u : Nat} {rs : List AttrRow}
    (h : baseAttrGetQueryset items lc u none = .ok rs) :
    (∀ t, t ∈ rs ↔ t ∈ items ∧ t.userId = u) ∧
    rs.Pairwise (fun a b => charListLe b.name.data a.name.data = true) ∧
    rs.Nodup := by
  rw [baseAttr_none_ok] at h
  cases h
  haveI : IsTotal AttrRow
      (fun a b => charListLe b.name.data a.name.data = true) :=
    ⟨fun a b => charListLe_total b.name.data a.name.data⟩
  haveI : IsTrans AttrRow
      (fun a b => charListLe b.name.data a.name.data = true) :=
    ⟨fun _ _ _ h1 h2 => charListLe_trans _ _ _ h2 h1⟩
  refine ⟨?_, ?_, List.nodup_dedup _⟩
  · intro t
    rw [List.mem_dedup, (List.perm_insertionSort _ _).mem_iff, List.mem_filter]
    simp [beq_iff_eq]
  · exact List.Pairwise.sublist (List.dedup_sublist _)
      (List.sorted_insertionSort _ _)

theorem baseAttr_mem_sound {items : List AttrRow} {lc : AttrRow → Nat}
    {u : Nat} {ap : Option String} {rs : List AttrRow} {x : AttrRow}
    (h : baseAttrGetQueryset items lc u ap = .ok rs) (hx : x ∈ rs) :
    x ∈ items ∧ x.userId = u := by
  unfold baseAttrGetQueryset at h
  cases hv : (match ap with | none => some (0 : Int) | some s => pyInt s.data) with
  | none => rw [hv] at h; cases h
  | some v =>
    rw [hv] at h
    dsimp only at h
    cases h
    rw [List.mem_dedup, (List.perm_insertionSort _ _).mem_iff,
      List.mem_filter] at hx
    obtain ⟨hq, hu⟩ := hx
    refine ⟨?_, by simpa using hu⟩
    by_cases hvz : (v != 0) = true
    · rw [if_pos hvz] at hq
      obtain ⟨t, _, hrep⟩ := List.mem_flatMap.mp hq
      exact (List.mem_replicate.mp hrep).2 ▸ ‹t ∈ items›
    · rw [if_neg hvz] at hq
      exact hq

/-- C8: listing tags (or ingredients) as a standalone collection returns
exactly the requesting owner's rows — membership is equivalent to being an
owner row — with no duplicates, ordered by name descending. -/
theorem attrListOwnerScopedNameDesc (db : Db) (u : Nat)
    (ts gs : List AttrRow)
    (h1 : tagGetQueryset db u none = .ok ts)
    (h2 : ingredientGetQueryset db u none = .ok gs) :
    ((∀ t, t ∈ ts ↔ t ∈ db.tagStore.rows ∧ t.userId = u) ∧
      ts.Pairwise (fun a b => charListLe b.name.data a.name.data = true) ∧
      ts.Nodup) ∧
    ((∀ t, t ∈ gs ↔ t ∈ db.ingredientStore.rows ∧ t.userId = u) ∧
      gs.Pairwise (fun a b => charListLe b.name.data a.name.data = true) ∧
      gs.Nodup) :=
  ⟨baseAttr_none_spec h1, baseAttr_none_spec h2⟩

/-- C8 witness: two tags and one ingredient of owner 10, one foreign tag. -/
theorem attrListOwnerScopedNameDesc_witness :
    ((⟨1, 10, "Vegan"⟩ : AttrRow) ∈ ([⟨1, 10, "Vegan"⟩, ⟨2, 10, "Dessert"⟩] :
      List AttrRow)) ∧
    ([⟨1, 10, "Vegan"⟩, ⟨2, 10, "Dessert"⟩] :
      List AttrRow).Pairwise
        (fun a b => charListLe b.name.data a.name.data = true) := by
  have h := attrListOwnerScopedNameDesc
    ⟨[], ⟨[⟨1, 10, "Vegan"⟩, ⟨2, 10, "Dessert"⟩, ⟨3, 11, "Fruity"⟩], 4⟩,
      ⟨[⟨7, 10, "Salt"⟩], 8⟩, [], 1, 1⟩ 10
    [⟨1, 10, "Vegan"⟩, ⟨2, 10, "Dessert"⟩] [⟨7, 10, "Salt"⟩] rfl rfl
  exact ⟨(h.1.1 ⟨1, 10, "Vegan"⟩).mpr (by decide), h.1.2.1⟩

/-! ### Filter semantics lemmas -/

theorem truthy_of_ne_nil {s : String} (hne : s.data ≠ []) :
    truthy (some s) = true := by
  unfold truthy
  cases hd : s.data with
  | nil => exact absurd hd hne
  | cons c cs => simp [hd]

theorem applyTagParam_some_ok {rows : List Recipe} {s : String}
    {ids : List Int} (hne : s.data ≠ []) (hp : paramsToInts s = some ids) :
    applyTagParam rows (some s) = .ok (tagJoinFilter rows ids) := by
  unfold applyTagParam
  rw [if_pos (truthy_of_ne_nil hne), Option.getD_some, hp]

theorem applyIngredientParam_some_ok {rows : List Recipe} {s : String}
    {ids : List Int} (hne : s.data ≠ []) (hp : paramsToInts s = some ids) :
    applyIngredientParam rows (some s) = .ok (ingredientJoinFilter rows ids) := by
  unfold applyIngredientParam
  rw [if_pos (truthy_of_ne_nil hne), Option.getD_some, hp]

/-- C4: with well-formed filter parameters, a recipe is returned iff it is
the owner's and is linked to at least one tag whose id is in the tag id set
(OR within the dimension), respectively at least one ingredient; with both
parameters given, both conditions must hold (AND across dimensions). -/
theorem filterSemantics (db : Db) (u : Nat) (s1 s2 : String)
    (tids iids : List Int)
    (h1 : paramsToInts s1 = some tids) (h2 : paramsToInts s2 = some iids)
    (hs1 : s1.data ≠ []) (hs2 : s2.data ≠ []) :
    (∀ rs, recipeGetQueryset db u (some s1) none = .ok rs →
      ∀ x, x ∈ rs ↔ x ∈ db.recipes ∧ x.userId = u ∧
        ∃ t ∈ x.tagIds, Int.ofNat t ∈ tids) ∧
    (∀ rs, recipeGetQueryset db u none (some s2) = .ok rs →
      ∀ x, x ∈ rs ↔ x ∈ db.recipes ∧ x.userId = u ∧
        ∃ i ∈ x.ingredientIds, Int.ofNat i ∈ iids) ∧
    (∀ rs, recipeGetQueryset db u (some s1) (some s2) = .ok rs →
      ∀ x, x ∈ rs ↔ x ∈ db.recipes ∧ x.userId = u ∧
        (∃ t ∈ x.tagIds, Int.ofNat t ∈ tids) ∧
        (∃ i ∈ x.ingredientIds, Int.ofNat i ∈ iids)) := by
  refine ⟨?_, ?_, ?_⟩
  · intro rs h x
    unfold recipeGetQueryset at h
    rw [applyTagParam_some_ok hs1 h1] at h
    dsimp only at h
    have hip : applyIngredientParam (tagJoinFilter db.recipes tids) none =
      .ok (tagJoinFilter db.recipes tids) := rfl
    rw [hip] at h
    cases h
    rw [mem_orderAndDistinct, mem_tagJoinFilter]
    tauto
  · intro rs h x
    unfold recipeGetQueryset at h
    have htp : applyTagParam db.recipes none = .ok db.recipes := rfl
    rw [htp] at h
    dsimp only at h
    rw [applyIngredientParam_some_ok hs2 h2] at h
    cases h
    rw [mem_orderAndDistinct, mem_ingredientJoinFilter]
    tauto
  · intro rs h x
    unfold recipeGetQueryset at h
    rw [applyTagParam_some_ok hs1 h1] at h
    dsimp only at h
    rw [applyIngredientParam_some_ok hs2 h2] at h
    cases h
    rw [mem_orderAndDistinct, mem_ingredientJoinFilter, mem_tagJoinFilter]
    tauto

/-- C4 witness: tags filter `1,2` keeps the recipes linked to tag 1 or 2
and drops the untagged one; adding ingredient filter `7` keeps only the
recipe that also has ingredient 7. -/
theorem filterSemantics_witness :
    ((⟨3, 10, "C", 5, 100, "", "", [], []⟩ : Recipe) ∈
        orderAndDistinct (tagJoinFilter
          [⟨1, 10, "A", 5, 100, "", "", [1], []⟩,
           ⟨2, 10, "B", 5, 100, "", "", [2], [7]⟩,
           ⟨3, 10, "C", 5, 100, "", "", [], []⟩] [1, 2]) 10 → False) ∧
    ((⟨2, 10, "B", 5, 100, "", "", [2], [7]⟩ : Recipe) ∈
        orderAndDistinct (tagJoinFilter
          [⟨1, 10, "A", 5, 100, "", "", [1], []⟩,
           ⟨2, 10, "B", 5, 100, "", "", [2], [7]⟩,
           ⟨3, 10, "C", 5, 100, "", "", [], []⟩] [1, 2]) 10) := by
  have h := (filterSemantics
    ⟨[], ⟨[⟨1, 10, "Vegan"⟩, ⟨2, 10, "Veg"⟩], 3⟩, ⟨[⟨7, 10, "Salt"⟩], 8⟩,
      [⟨1, 10, "A", 5, 100, "", "", [1], []⟩,
       ⟨2, 10, "B", 5, 100, "", "", [2], [7]⟩,
       ⟨3, 10, "C", 5, 100, "", "", [], []⟩], 4, 1⟩
    10 "1,2" "7" [1, 2] [7] rfl rfl (by decide) (by decide)).1
    _ rfl
  constructor
  · intro hmem
    have := (h (⟨3, 10, "C", 5, 100, "", "", [], []⟩ : Recipe)).mp hmem
    revert this
    decide
  · exact (h (⟨2, 10, "B", 5, 100, "", "", [2], [7]⟩ : Recipe)).mpr
      (by decide)

/-! ### Cross-owner isolation lemmas -/

theorem recipeGetObject_other_none {db : Db} {a : Nat} {r : Recipe}
    (hids : db.recipes.Pairwise (fun x y => x.id ≠ y.id))
    (hr : r ∈ db.recipes) (hno : r.userId ≠ a) :
    recipeGetObject db a r.id = none := by
  unfold recipeGetObject
  have hq : recipeGetQueryset db a none none =
      .ok (orderAndDistinct db.recipes a) := rfl
  rw [hq]
  dsimp only
  apply List.find?_eq_none.mpr
  intro x hx hbeq
  obtain ⟨hxr, hxu⟩ := mem_orderAndDistinct.mp hx
  have hxid : x.id = r.id := by simpa using hbeq
  have hxne : x ≠ r := fun e => hno (by rw [← e]; exact hxu)
  have hsym : Symmetric (fun x y : Recipe => x.id ≠ y.id) :=
    fun x y h e => h e.symm
  exact hids.forall hsym hxr hr hxne hxid

theorem tagGetObject_other_none {db : Db} {a : Nat} {t : AttrRow}
    (hids : db.tagStore.rows.Pairwise (fun x y => x.id ≠ y.id))
    (ht : t ∈ db.tagStore.rows) (hno : t.userId ≠ a) :
    tagGetObject db a t.id = none := by
  unfold tagGetObject
  cases hq : tagGetQueryset db a none with
  | error e => rfl
  | ok ts =>
    dsimp only
    apply List.find?_eq_none.mpr
    intro x hx hbeq
    obtain ⟨hxr, hxu⟩ := ((baseAttr_none_spec hq).1 x).mp hx
    have hxid : x.id = t.id := by simpa using hbeq
    have hxne : x ≠ t := fun e => hno (by rw [← e]; exact hxu)
    have hsym : Symmetric (fun x y : AttrRow => x.id ≠ y.id) :=
      fun x y h e => h e.symm
    exact hids.forall hsym hxr ht hxne hxid

theorem ingredientGetObject_other_none {db : Db} {a : Nat} {t : AttrRow}
    (hids : db.ingredientStore.rows.Pairwise (fun x y => x.id ≠ y.id))
    (ht : t ∈ db.ingredientStore.rows) (hno : t.userId ≠ a) :
    ingredientGetObject db a t.id = none := by
  unfold ingredientGetObject
  cases hq : ingredientGetQueryset db a none with
  | error e => rfl
  | ok ts =>
    dsimp only
    apply List.find?_eq_none.mpr
    intro x hx hbeq
    obtain ⟨hxr, hxu⟩ := ((baseAttr_none_spec hq).1 x).mp hx
    have hxid : x.id = t.id := by simpa using hbeq
    have hxne : x ≠ t := fun e => hno (by rw [← e]; exact hxu)
    have hsym : Symmetric (fun x y : AttrRow => x.id ≠ y.id) :=
      fun x y h e => h e.symm
    exact hids.forall hsym hxr ht hxne hxid

/-- C1 (amended): for distinct owners, no list result of owner `a`
contains a recipe, tag or ingredient of owner `b`; retrieve, update and
delete of `b`'s recipe and update and delete of `b`'s tag or ingredient by
`a` fail with `notFound` (never `forbidden`), leaving the store untouched;
and the tag and ingredient routes bind no retrieve action at all, so a
detail GET there fails with `methodNotAllowed` for every caller — `a` can
still never retrieve `b`'s entity. -/
theorem crossOwnerIsolation (db : Db) (a b : Nat) (hab : a ≠ b)
    (hrid : db.recipes.Pairwise (fun x y => x.id ≠ y.id))
    (htid : db.tagStore.rows.Pairwise (fun x y => x.id ≠ y.id))
    (hiid : db.ingredientStore.rows.Pairwise (fun x y => x.id ≠ y.id)) :
    (∀ r ∈ db.recipes, r.userId = b →
      (∀ tp ip rs, recipeGetQueryset db a tp ip = .ok rs → r ∉ rs) ∧
      recipeRetrieve db a r.id = .error .notFound ∧
      (∀ p, recipeUpdate db a r.id p = (.error .notFound, db)) ∧
      recipeDestroy db a r.id = (.error .notFound, db)) ∧
    (∀ t ∈ db.tagStore.rows, t.userId = b →
      (∀ ap ts, tagGetQueryset db a ap = .ok ts → t ∉ ts) ∧
      tagRetrieve db a t.id = .error .methodNotAllowed ∧
      (∀ nm, tagUpdate db a t.id nm = (.error .notFound, db)) ∧
      tagDestroy db a t.id = (.error .notFound, db)) ∧
    (∀ t ∈ db.ingredientStore.rows, t.userId = b →
      (∀ ap ts, ingredientGetQueryset db a ap = .ok ts → t ∉ ts) ∧
      ingredientRetrieve db a t.id = .error .methodNotAllowed ∧
      (∀ nm, ingredientUpdate db a t.id nm = (.error .notFound, db)) ∧
      ingredientDestroy db a t.id = (.error .notFound, db)) := by
  refine ⟨?_, ?_, ?_⟩
  · intro r hr hrb
    have hno : r.userId ≠ a := fun e => hab (e.symm.trans hrb)
    have hobj := recipeGetObject_other_none hrid hr hno
    refine ⟨?_, ?_, ?_, ?_⟩
    · intro tp ip rs h hin
      exact hno (mem_recipeGetQueryset_sound h hin).2
    · unfold recipeRetrieve; rw [hobj]
    · intro p; unfold recipeUpdate; rw [hobj]
    · unfold recipeDestroy; rw [hobj]
  · intro t ht htb
    have hno : t.userId ≠ a := fun e => hab (e.symm.trans htb)
    have hobj := tagGetObject_other_none htid ht hno
    refine ⟨?_, rfl, ?_, ?_⟩
    · intro ap ts h hin
      exact hno (baseAttr_mem_sound h hin).2
    · intro nm; unfold tagUpdate; rw [hobj]
    · unfold tagDestroy; rw [hobj]
  · intro t ht htb
    have hno : t.userId ≠ a := fun e => hab (e.symm.trans htb)
    have hobj := ingredientGetObject_other_none hiid ht hno
    refine ⟨?_, rfl, ?_, ?_⟩
    · intro ap ts h hin
      exact hno (baseAttr_mem_sound h hin).2
    · intro nm; unfold ingredientUpdate; rw [hobj]
    · unfold ingredientDestroy; rw [hobj]

/-- C1 counterexample to the original claim: retrieving owner 11's tag (id
3) or ingredient (id 9) as owner 10 does not fail with `notFound` — the tag
and ingredient routes bind no retrieve action, so the request fails with
`methodNotAllowed` (405). -/
theorem crossOwnerIsolation_counterexample :
    tagRetrieve wDbIso 10 3 = .error .methodNotAllowed ∧
    ingredientRetrieve wDbIso 10 9 = .error .methodNotAllowed ∧
    tagRetrieve wDbIso 10 3 ≠ .error .notFound := by
  refine ⟨rfl, rfl, ?_⟩
  intro h
  exact Err.noConfusion (Except.error.inj h)

/-- C1 witness: owner 10 deleting or renaming owner 11's entities gets
`notFound` with the store unchanged, and a detail GET on owner 11's tag is
a disabled verb (`methodNotAllowed`). -/
theorem crossOwnerIsolation_witness :
    recipeDestroy wDbIso 10 4 = (.error .notFound, wDbIso) ∧
    tagUpdate wDbIso 10 3 (some "New") = (.error .notFound, wDbIso) ∧
    tagRetrieve wDbIso 10 3 = .error .methodNotAllowed ∧
    ingredientDestroy wDbIso 10 9 = (.error .notFound, wDbIso) := by
  have h := crossOwnerIsolation wDbIso 10 11 (by decide)
    (by decide) (by decide) (by decide)
  exact ⟨(h.1 ⟨4, 11, "R4", 5, 100, "", "", [3], [9]⟩ (by decide) rfl).2.2.2,
    (h.2.1 ⟨3, 11, "F"⟩ (by decide) rfl).2.2.1 (some "New"),
    (h.2.1 ⟨3, 11, "F"⟩ (by decide) rfl).2.1,
    (h.2.2 ⟨9, 11, "P"⟩ (by decide) rfl).2.2.2⟩

/-! ### Attribute store resolution lemmas -/

theorem find?_append_some {p : AttrRow → Bool} {l : List AttrRow}
    {x : AttrRow} (l2 : List AttrRow) (h : l.find? p = some x) :
    (l ++ l2).find? p = some x := by
  rw [List.find?_append, h]
  rfl

theorem attrKey_true_iff {u : Nat} {n : String} {t : AttrRow} :
    attrKey u n t = true ↔ t.userId = u ∧ t.name = n := by
  unfold attrKey
  rw [Bool.and_eq_true, beq_iff_eq, beq_iff_eq]

theorem getOrCreate_spec {s : AttrStore} {u : Nat} {n : String} {i : Nat}
    {s' : AttrStore} (h : s.getOrCreate u n = (i, s')) :
    s'.rows.find? (attrKey u n) = some ⟨i, u, n⟩ ∧
    (∀ p x, s.rows.find? p = some x → s'.rows.find? p = some x) ∧
    (s'.rows = s.rows ∨
      (s'.rows = s.rows ++ [⟨s.nextId, u, n⟩] ∧
        s.rows.find? (attrKey u n) = none ∧ i = s.nextId)) ∧
    (s.wf → s'.wf) := by
  unfold AttrStore.getOrCreate at h
  cases hf : s.rows.find? (attrKey u n) with
  | some t =>
    rw [hf] at h
    dsimp only at h
    obtain ⟨rfl, rfl⟩ : t.id = i ∧ s = s' := by
      have := Prod.mk.injEq t.id s i s' ▸ h
      exact ⟨congrArg Prod.fst h, congrArg Prod.snd h⟩
    obtain ⟨hu, hn⟩ := attrKey_true_iff.mp (List.find?_some hf)
    refine ⟨?_, fun p x hx => hx, Or.inl rfl, fun hwf => hwf⟩
    rw [hf]
    obtain ⟨ti, tu, tn⟩ := t
    simp only at hu hn
    rw [hu, hn]
  | none =>
    rw [hf] at h
    dsimp only at h
    obtain ⟨rfl, rfl⟩ : s.nextId = i ∧
        (⟨s.rows ++ [⟨s.nextId, u, n⟩], s.nextId + 1⟩ : AttrStore) = s' :=
      ⟨congrArg Prod.fst h, congrArg Prod.snd h⟩
    have hnew : attrKey u n ⟨s.nextId, u, n⟩ = true :=
      attrKey_true_iff.mpr ⟨rfl, rfl⟩
    refine ⟨?_, ?_, Or.inr ⟨rfl, rfl, rfl⟩, ?_⟩
    · rw [List.find?_append, hf]
      simp [List.find?_cons_of_pos, hnew]
    · exact fun p x hx => find?_append_some _ hx
    · rintro ⟨hids, hbound, hkeys⟩
      have hall := List.find?_eq_none.mp hf
      refine ⟨?_, ?_, ?_⟩
      · rw [List.pairwise_append]
        refine ⟨hids, List.pairwise_singleton _ _, ?_⟩
        intro x hx y hy
        have : y = (⟨s.nextId, u, n⟩ : AttrRow) := List.mem_singleton.mp hy
        rw [this]
        exact Nat.ne_of_lt (hbound x hx)
      · intro t ht
        rcases List.mem_append.mp ht with htl | htr
        · exact Nat.lt_succ_of_lt (hbound t htl)
        · rw [List.mem_singleton.mp htr]
          exact Nat.lt_succ_self _
      · rw [List.pairwise_append]
        refine ⟨hkeys, List.pairwise_singleton _ _, ?_⟩
        intro x hx y hy hxyu
        have hy' : y = (⟨s.nextId, u, n⟩ : AttrRow) := List.mem_singleton.mp hy
        subst hy'
        intro hname
        exact hall x hx (attrKey_true_iff.mpr ⟨hxyu, hname⟩)

theorem find?_key_of_mem {u : Nat} :
    ∀ {l : List AttrRow},
      l.Pairwise (fun a b => a.userId = b.userId → a.name ≠ b.name) →
      ∀ {t : AttrRow}, t ∈ l → t.userId = u →
        l.find? (attrKey u t.name) = some t := by
  intro l
  induction l with
  | nil => intro _ t ht; cases ht
  | cons hd tl ih =>
    intro hpw t ht hu
    by_cases hk : attrKey u t.name hd = true
    · have hht : hd = t := by
        rcases List.mem_cons.mp ht with rfl | htl
        · rfl
        · exfalso
          obtain ⟨hku, hkn⟩ := attrKey_true_iff.mp hk
          exact (List.pairwise_cons.mp hpw).1 t htl
            (hku.trans hu.symm) hkn
      rw [List.find?_cons_of_pos _ hk, hht]
    · have htl : t ∈ tl := by
        rcases List.mem_cons.mp ht with rfl | htl
        · exact absurd (attrKey_true_iff.mpr ⟨hu, rfl⟩) hk
        · exact htl
      rw [List.find?_cons_of_neg _ hk]
      exact ih (List.pairwise_cons.mp hpw).2 htl hu

theorem idOf_inj {s : AttrStore} (hwf : s.wf) {u : Nat} {n m : String}
    {i : Nat} (hn : s.idOf u n = some i) (hm : s.idOf u m = some i) :
    n = m := by
  unfold AttrStore.idOf at hn hm
  obtain ⟨t1, ht1, hid1⟩ := Option.map_eq_some'.mp hn
  obtain ⟨t2, ht2, hid2⟩ := Option.map_eq_some'.mp hm
  have hn1 : t1.name = n := (attrKey_true_iff.mp (List.find?_some ht1)).2
  have hn2 : t2.name = m := (attrKey_true_iff.mp (List.find?_some ht2)).2
  have hmem1 := List.mem_of_find?_eq_some ht1
  have hmem2 := List.mem_of_find?_eq_some ht2
  have heq : t1 = t2 := by
    by_contra hne
    have hsym : Symmetric (fun a b : AttrRow => a.id ≠ b.id) :=
      fun a b h e => h e.symm
    exact hwf.1.forall hsym hmem1 hmem2 hne (hid1.trans hid2.symm)
  rw [← hn1, heq, hn2]

theorem resolve_spec (u : Nat) :
    ∀ (names : List String) (s : AttrStore) (ids : List Nat)
      (s' : AttrStore), s.resolve u names = (ids, s') → s.wf →
      s'.wf ∧
      (∀ p x, s.rows.find? p = some x → s'.rows.find? p = some x) ∧
      (∀ n ∈ names, ∃ t : AttrRow,
        s'.rows.find? (attrKey u n) = some t ∧ t.userId = u ∧ t.name = n) ∧
      ids = names.map (fun n => (s'.idOf u n).getD 0) := by
  intro names
  induction names with
  | nil =>
    intro s ids s' h hwf
    obtain ⟨rfl, rfl⟩ : ([] : List Nat) = ids ∧ s = s' :=
      ⟨congrArg Prod.fst h, congrArg Prod.snd h⟩
    exact ⟨hwf, fun p x hx => hx, fun n hn => absurd hn (List.not_mem_nil n),
      rfl⟩
  | cons n rest ih =>
    intro s ids s' h hwf
    unfold AttrStore.resolve at h
    rcases hg : s.getOrCreate u n with ⟨i1, s1⟩
    rw [hg] at h
    dsimp only at h
    rcases hr : s1.resolve u rest with ⟨ids2, s2⟩
    rw [hr] at h
    dsimp only at h
    obtain ⟨rfl, rfl⟩ : i1 :: ids2 = ids ∧ s2 = s' :=
      ⟨congrArg Prod.fst h, congrArg Prod.snd h⟩
    obtain ⟨hgfind, hgstab, _, hgwf⟩ := getOrCreate_spec hg
    obtain ⟨hwf2, hstab2, hres2, hids2⟩ := ih s1 ids2 s2 hr (hgwf hwf)
    have hfind2 : s2.rows.find? (attrKey u n) = some ⟨i1, u, n⟩ :=
      hstab2 _ _ hgfind
    refine ⟨hwf2, fun p x hx => hstab2 p x (hgstab p x hx), ?_, ?_⟩
    · intro m hm
      rcases List.mem_cons.mp hm with rfl | hmr
      · exact ⟨⟨i1, u, m⟩, hfind2, rfl, rfl⟩
      · exact hres2 m hmr
    · rw [List.map_cons, ← hids2]
      have : (s2.idOf u n).getD 0 = i1 := by
        unfold AttrStore.idOf
        rw [hfind2]
        rfl
      rw [this]

theorem getOrCreate_filter_eq {s : AttrStore} {u : Nat} {m n : String}
    {i : Nat} {s' : AttrStore} (h : s.getOrCreate u m = (i, s'))
    (hpres : s.rows.find? (attrKey u n) ≠ none) :
    s'.rows.filter (attrKey u n) = s.rows.filter (attrKey u n) := by
  rcases (getOrCreate_spec h).2.2.1 with hr | ⟨hr, hnone, _⟩
  · rw [hr]
  · by_cases hmn : m = n
    · subst hmn
      exact absurd hnone hpres
    · have hku : attrKey u n ⟨s.nextId, u, m⟩ = false := by
        rw [Bool.eq_false_iff]
        intro hk
        exact hmn (attrKey_true_iff.mp hk).2
      rw [hr, List.filter_append]
      simp [List.filter_cons, hku]

theorem resolve_filter_eq (u : Nat) :
    ∀ (names : List String) (s : AttrStore) {ids : List Nat}
      {s' : AttrStore}, s.resolve u names = (ids, s') → ∀ {n : String},
      s.rows.find? (attrKey u n) ≠ none →
      s'.rows.filter (attrKey u n) = s.rows.filter (attrKey u n) := by
  intro names
  induction names with
  | nil =>
    intro s ids s' h n hpres
    obtain rfl : s = s' := congrArg Prod.snd h
    rfl
  | cons m rest ih =>
    intro s ids s' h n hpres
    unfold AttrStore.resolve at h
    rcases hg : s.getOrCreate u m with ⟨i1, s1⟩
    rw [hg] at h
    dsimp only at h
    rcases hr : s1.resolve u rest with ⟨ids2, s2⟩
    rw [hr] at h
    dsimp only at h
    obtain rfl : s2 = s' := congrArg Prod.snd h
    obtain ⟨x, hx⟩ := Option.ne_none_iff_exists'.mp hpres
    have hx1 : s1.rows.find? (attrKey u n) = some x :=
      (getOrCreate_spec hg).2.1 _ _ hx
    have hpres1 : s1.rows.find? (attrKey u n) ≠ none := by
      rw [hx1]
      exact Option.some_ne_none x
    rw [ih s1 hr hpres1, getOrCreate_filter_eq hg hpres]

theorem dedup_length_map {α β : Type} [DecidableEq α] [DecidableEq β]
    (f : α → β) : ∀ (l : List α),
    (∀ a ∈ l, ∀ b ∈ l, f a = f b → a = b) →
    ((l.map f).dedup).length = l.dedup.length := by
  intro l
  induction l with
  | nil => intro _; rfl
  | cons a l ih =>
    intro hinj
    have hrest : ∀ x ∈ l, ∀ y ∈ l, f x = f y → x = y :=
      fun x hx y hy => hinj x (List.mem_cons_of_mem a hx) y
        (List.mem_cons_of_mem a hy)
    rw [List.map_cons]
    by_cases hmem : a ∈ l
    · have hfmem : f a ∈ l.map f := List.mem_map.mpr ⟨a, hmem, rfl⟩
      rw [List.dedup_cons_of_mem hmem, List.dedup_cons_of_mem hfmem]
      exact ih hrest
    · have hfmem : f a ∉ l.map f := by
        intro hf
        obtain ⟨b, hb, hfb⟩ := List.mem_map.mp hf
        have : b = a := hinj b (List.mem_cons_of_mem a hb) a
          (List.mem_cons_self a l) hfb
        exact hmem (this ▸ hb)
      rw [List.dedup_cons_of_not_mem hmem, List.dedup_cons_of_not_mem hfmem,
        List.length_cons, List.length_cons, ih hrest]

/-- Core consequence of name resolution on a well-formed store: the linked
id set is duplicate-free with one id per distinct name, every pre-existing
`(owner, name)` row is reused (its id is linked and no second row with its
key appears). -/
theorem resolve_core {s : AttrStore} {u : Nat} {names : List String}
    {ids : List Nat} {s' : AttrStore} (h : s.resolve u names = (ids, s'))
    (hwf : s.wf) :
    ids.dedup.Nodup ∧ ids.dedup.length = names.dedup.length ∧
    (∀ t ∈ s.rows, t.userId = u → t.name ∈ names →
      t.id ∈ ids.dedup ∧
      s'.rows.filter (attrKey u t.name) = s.rows.filter (attrKey u t.name)) := by
  obtain ⟨hwf2, hstab, hres, hideq⟩ := resolve_spec u names s ids s' h hwf
  have hinj : ∀ a ∈ names, ∀ b ∈ names,
      (fun n => (s'.idOf u n).getD 0) a = (fun n => (s'.idOf u n).getD 0) b →
      a = b := by
    intro a ha b hb hfab
    obtain ⟨ta, hta, htau, htan⟩ := hres a ha
    obtain ⟨tb, htb, htbu, htbn⟩ := hres b hb
    have hia : s'.idOf u a = some ta.id := by
      unfold AttrStore.idOf
      rw [hta]
      rfl
    have hib : s'.idOf u b = some tb.id := by
      unfold AttrStore.idOf
      rw [htb]
      rfl
    have : ta.id = tb.id := by
      have := hfab
      dsimp only at this
      rw [hia, hib] at this
      simpa using this
    exact idOf_inj hwf2 hia (this ▸ hib)
  refine ⟨List.nodup_dedup _, ?_, ?_⟩
  · rw [hideq]
    exact dedup_length_map _ names hinj
  · intro t ht htu htn
    have hfind : s.rows.find? (attrKey u t.name) = some t :=
      find?_key_of_mem hwf.2.2 ht htu
    have hfind2 : s'.rows.find? (attrKey u t.name) = some t :=
      hstab _ _ hfind
    have hidof : (s'.idOf u t.name).getD 0 = t.id := by
      unfold AttrStore.idOf
      rw [hfind2]
      rfl
    have hpres : s.rows.find? (attrKey u t.name) ≠ none := by
      rw [hfind]
      exact Option.some_ne_none t
    refine ⟨?_, resolve_filter_eq u names s h hpres⟩
    rw [List.mem_dedup, hideq]
    exact List.mem_map.mpr ⟨t.name, htn, hidof⟩

theorem recipeCreate_tags_eq {db : Db} {u : Nat} {p : RecipeCreatePayload}
    {names : List String} {tids : List Nat} {ts : AttrStore}
    (htags : p.tags = some names)
    (hres : db.tagStore.resolve u names = (tids, ts)) :
    (recipeCreate db u p).1.tagIds = tids.dedup ∧
    (recipeCreate db u p).2.tagStore = ts := by
  unfold recipeCreate
  rw [htags]
  dsimp only
  rw [hres]
  dsimp only
  cases hing : p.ingredients with
  | none => exact ⟨rfl, rfl⟩
  | some inames => exact ⟨rfl, rfl⟩

theorem recipeCreate_ingredients_eq {db : Db} {u : Nat}
    {p : RecipeCreatePayload} {names : List String} {iids : List Nat}
    {s2 : AttrStore} (hing : p.ingredients = some names)
    (hres : db.ingredientStore.resolve u names = (iids, s2)) :
    (recipeCreate db u p).1.ingredientIds = iids.dedup ∧
    (recipeCreate db u p).2.ingredientStore = s2 := by
  unfold recipeCreate
  rw [hing]
  cases htags : p.tags with
  | none =>
    dsimp only
    rw [hres]
    exact ⟨rfl, rfl⟩
  | some tnames =>
    dsimp only
    rw [hres]
    exact ⟨rfl, rfl⟩

/-- C2: creating a recipe with tag (or ingredient) name descriptors reuses
any row whose `(owner, name)` already exists — the pre-existing row's id is
linked and no second row with its key is created — duplicated names link a
single entity, and the recipe ends up with exactly one linked entity per
distinct name. -/
theorem nestedNamesGetOrCreate (db : Db) (u : Nat) (p : RecipeCreatePayload) :
    (∀ names, p.tags = some names → db.tagStore.wf →
      (recipeCreate db u p).1.tagIds.Nodup ∧
      (recipeCreate db u p).1.tagIds.length = names.dedup.length ∧
      (∀ t ∈ db.tagStore.rows, t.userId = u → t.name ∈ names →
        t.id ∈ (recipeCreate db u p).1.tagIds ∧
        (recipeCreate db u p).2.tagStore.rows.filter (attrKey u t.name) =
          db.tagStore.rows.filter (attrKey u t.name))) ∧
    (∀ names, p.ingredients = some names → db.ingredientStore.wf →
      (recipeCreate db u p).1.ingredientIds.Nodup ∧
      (recipeCreate db u p).1.ingredientIds.length = names.dedup.length ∧
      (∀ t ∈ db.ingredientStore.rows, t.userId = u → t.name ∈ names →
        t.id ∈ (recipeCreate db u p).1.ingredientIds ∧
        (recipeCreate db u p).2.ingredientStore.rows.filter
            (attrKey u t.name) =
          db.ingredientStore.rows.filter (attrKey u t.name))) := by
  constructor
  · intro names htags hwf
    rcases hres : db.tagStore.resolve u names with ⟨tids, ts⟩
    obtain ⟨he1, he2⟩ := recipeCreate_tags_eq htags hres
    obtain ⟨hnd, hlen, hreuse⟩ := resolve_core hres hwf
    rw [he1, he2]
    exact ⟨hnd, hlen, fun t ht htu htn =>
      ⟨(hreuse t ht htu htn).1, (hreuse t ht htu htn).2⟩⟩
  · intro names hing hwf
    rcases hres : db.ingredientStore.resolve u names with ⟨iids, s2⟩
    obtain ⟨he1, he2⟩ := recipeCreate_ingredients_eq hing hres
    obtain ⟨hnd, hlen, hreuse⟩ := resolve_core hres hwf
    rw [he1, he2]
    exact ⟨hnd, hlen, fun t ht htu htn =>
      ⟨(hreuse t ht htu htn).1, (hreuse t ht htu htn).2⟩⟩

/-- C2 witness: two distinct names give exactly two linked tags, and the
pre-existing `Indian` tag's id 1 is among them. -/
theorem nestedNamesGetOrCreate_witness :
    (recipeCreate wDbC2 10 wPayloadC2).1.tagIds.Nodup ∧
    (recipeCreate wDbC2 10 wPayloadC2).1.tagIds.length =
      (["Indian", "Breakfast", "Breakfast"] : List String).dedup.length ∧
    1 ∈ (recipeCreate wDbC2 10 wPayloadC2).1.tagIds := by
  have h := (nestedNamesGetOrCreate wDbC2 10 wPayloadC2).1
    ["Indian", "Breakfast", "Breakfast"] rfl
    ⟨by decide, by decide, by decide⟩
  exact ⟨h.1, h.2.1,
    (h.2.2 ⟨1, 10, "Indian"⟩ (by decide) rfl (by decide)).1⟩

theorem recipeUpdate_fields {db : Db} {u pk : Nat} {p : RecipePayload}
    {r : Recipe} (hobj : recipeGetObject db u pk = some r) :
    ∃ r' db', recipeUpdate db u pk p = (.ok r', db') ∧
      r'.id = r.id ∧ r'.userId = r.userId ∧
      r'.title = p.title.getD r.title ∧
      r'.timeMinutes = p.timeMinutes.getD r.timeMinutes ∧
      r'.price = p.price.getD r.price ∧
      r'.description = p.description.getD r.description ∧
      r'.link = p.link.getD r.link ∧
      r'.tagIds = (match p.tags with
        | none => r.tagIds
        | some names => (db.tagStore.resolve u names).1.dedup) ∧
      r'.ingredientIds = (match p.ingredients with
        | none => r.ingredientIds
        | some names => (db.ingredientStore.resolve u names).1.dedup) := by
  unfold recipeUpdate
  rw [hobj]
  dsimp only
  cases htags : p.tags with
  | none =>
    cases hing : p.ingredients with
    | none => exact ⟨_, _, rfl, rfl, rfl, rfl, rfl, rfl, rfl, rfl, rfl, rfl⟩
    | some inames =>
      exact ⟨_, _, rfl, rfl, rfl, rfl, rfl, rfl, rfl, rfl, rfl, rfl⟩
  | some tnames =>
    cases hing : p.ingredients with
    | none => exact ⟨_, _, rfl, rfl, rfl, rfl, rfl, rfl, rfl, rfl, rfl, rfl⟩
    | some inames =>
      exact ⟨_, _, rfl, rfl, rfl, rfl, rfl, rfl, rfl, rfl, rfl, rfl⟩

/-- C3: in a recipe update, a present `tags` key fully replaces the link
set with the resolved set — an empty list clears it, and previously linked
tags absent from the resolved set are unlinked — while an absent key leaves
the link set untouched; same for `ingredients`.  Presence of the key, not
emptiness, distinguishes the cases. -/
theorem tagsKeyReplaceSemantics (db : Db) (u pk : Nat) (p : RecipePayload)
    (r r' : Recipe) (db' : Db)
    (hobj : recipeGetObject db u pk = some r)
    (hup : recipeUpdate db u pk p = (.ok r', db')) :
    (p.tags = none → r'.tagIds = r.tagIds) ∧
    (∀ names, p.tags = some names →
      r'.tagIds = (db.tagStore.resolve u names).1.dedup ∧
      (names = [] → r'.tagIds = []) ∧
      (∀ i ∈ r.tagIds, i ∉ (db.tagStore.resolve u names).1 →
        i ∉ r'.tagIds)) ∧
    (p.ingredients = none → r'.ingredientIds = r.ingredientIds) ∧
    (∀ names, p.ingredients = some names →
      r'.ingredientIds = (db.ingredientStore.resolve u names).1.dedup ∧
      (names = [] → r'.ingredientIds = []) ∧
      (∀ i ∈ r.ingredientIds, i ∉ (db.ingredientStore.resolve u names).1 →
        i ∉ r'.ingredientIds)) := by
  obtain ⟨r2, db2, heq, _, _, _, _, _, _, _, htag, hing⟩ :=
    recipeUpdate_fields (p := p) hobj
  have hpair := heq.symm.trans hup
  have hr2 : r2 = r' := Except.ok.inj (congrArg Prod.fst hpair)
  subst hr2
  refine ⟨?_, ?_, ?_, ?_⟩
  · intro hn
    rw [htag, hn]
  · intro names hn
    rw [htag, hn]
    refine ⟨rfl, ?_, ?_⟩
    · rintro rfl
      rfl
    · intro i _ hnot hmem
      exact hnot (List.mem_dedup.mp hmem)
  · intro hn
    rw [hing, hn]
  · intro names hn
    rw [hing, hn]
    refine ⟨rfl, ?_, ?_⟩
    · rintro rfl
      rfl
    · intro i _ hnot hmem
      exact hnot (List.mem_dedup.mp hmem)

/-- C3 witness: patching `tags: [L]` replaces the link set with the
resolved set and unlinks the previously linked tag 1. -/
theorem tagsKeyReplaceSemantics_witness :
    (⟨1, 10, "T", 5, 100, "", "", [2], []⟩ : Recipe).tagIds =
      (wDbC3.tagStore.resolve 10 ["L"]).1.dedup ∧
    (1 : Nat) ∉ (⟨1, 10, "T", 5, 100, "", "", [2], []⟩ : Recipe).tagIds := by
  have h := tagsKeyReplaceSemantics wDbC3 10 1 wPayloadC3
    ⟨1, 10, "T", 5, 100, "", "", [1], []⟩
    ⟨1, 10, "T", 5, 100, "", "", [2], []⟩
    ⟨[], ⟨[⟨1, 10, "B"⟩, ⟨2, 10, "L"⟩], 3⟩, ⟨[], 1⟩,
      [⟨1, 10, "T", 5, 100, "", "", [2], []⟩], 2, 1⟩ rfl rfl
  exact ⟨(h.2.1 ["L"] rfl).1,
    (h.2.1 ["L"] rfl).2.2 1 (by decide) (by decide)⟩

/-- C6: a partial update found in the owner queryset always succeeds;
every field whose key is absent keeps its prior value, the owner never
changes, and a supplied `user` value is discarded without effect. -/
theorem partialUpdateFrame (db : Db) (u pk : Nat) (p : RecipePayload)
    (r : Recipe) (hobj : recipeGetObject db u pk = some r) :
    ∃ r' db', recipeUpdate db u pk p = (.ok r', db') ∧
      (p.title = none → r'.title = r.title) ∧
      (p.timeMinutes = none → r'.timeMinutes = r.timeMinutes) ∧
      (p.price = none → r'.price = r.price) ∧
      (p.description = none → r'.description = r.description) ∧
      (p.link = none → r'.link = r.link) ∧
      (p.tags = none → r'.tagIds = r.tagIds) ∧
      (p.ingredients = none → r'.ingredientIds = r.ingredientIds) ∧
      r'.userId = r.userId ∧
      (∀ v, recipeUpdate db u pk { p with userField := some v } =
        recipeUpdate db u pk p) := by
  obtain ⟨r2, db2, heq, _, huser, ht, htm, hpr, hd, hl, htag, hing⟩ :=
    recipeUpdate_fields (p := p) hobj
  refine ⟨r2, db2, heq, ?_, ?_, ?_, ?_, ?_, ?_, ?_, huser, ?_⟩
  · intro hn; rw [ht, hn, Option.getD_none]
  · intro hn; rw [htm, hn, Option.getD_none]
  · intro hn; rw [hpr, hn, Option.getD_none]
  · intro hn; rw [hd, hn, Option.getD_none]
  · intro hn; rw [hl, hn, Option.getD_none]
  · intro hn; rw [htag, hn]
  · intro hn; rw [hing, hn]
  · intro v
    obtain ⟨pt, ptm, pp, pd, pl, pu, ptag, ping⟩ := p
    rfl

/-- C6 witness: the update succeeds with only the title changed, the owner
staying 10 despite `user: 99`, and any other attempted owner value yields
the identical outcome. -/
theorem partialUpdateFrame_witness :
    recipeUpdate wDbC6 10 1 wPayloadC6 =
      (.ok ⟨1, 10, "New", 5, 100, "", "L", [1], []⟩,
        ⟨[], ⟨[⟨1, 10, "B"⟩], 2⟩, ⟨[], 1⟩,
          [⟨1, 10, "New", 5, 100, "", "L", [1], []⟩], 2, 1⟩) ∧
    recipeUpdate wDbC6 10 1 { wPayloadC6 with userField := some 77 } =
      recipeUpdate wDbC6 10 1 wPayloadC6 := by
  obtain ⟨r', db', heq, hcons⟩ := partialUpdateFrame wDbC6 10 1 wPayloadC6
    ⟨1, 10, "Old", 5, 100, "", "L", [1], []⟩ rfl
  exact ⟨rfl, hcons.2.2.2.2.2.2.2.2 77⟩

end RecipeApp
